import Mathlib

/-!
Verification development for the egui-litecode repository (src/editor.rs,
src/viewer.rs): a shallow embedding of the two widget types (CodeEditor,
CodeViewer), their construction, cloning and equality, and the per-redraw
highlight-to-layout projection performed by their ui methods.  The external
syntect engine (HighlightLines) is modelled abstractly as a state-threading
tokenizer; egui's glyph shaping, fonts and wrap width (floats) are outside
the embedding, which keeps exactly the data the source produces: the ordered
run sequence (text, color) appended to the LayoutJob.
-/

deriving instance DecidableEq for Except

namespace EguiLitecode

/-- Text is modelled as a list of characters (Rust String / str slices). -/
abbrev Str := List Char

/-- Rust str::lines: split the text at every newline character.  Helper
producing the raw parts; a text with k newlines yields k+1 parts. -/
def splitNL (s : Str) : List Str := s.splitOn '\n'

/-- Rust str::lines strips one trailing carriage return from a line that was
terminated by a newline. -/
def stripCR (l : Str) : Str :=
  if l.getLast? = some '\r' then l.dropLast else l

/-- Rust str::lines on the parts of splitNL: every newline-terminated part
loses a trailing carriage return; the final unterminated part is kept as-is
unless it is empty (a trailing line ending yields no extra line). -/
def rustLinesAux : List Str → List Str
  | [] => []
  | [last] => if last = [] then [] else [last]
  | p :: rest => stripCR p :: rustLinesAux rest

/-- Rust str::lines, as iterated by the editor's layouter. -/
def rustLines (s : Str) : List Str := rustLinesAux (splitNL s)

/-- A syntect color: four bytes r, g, b, a (syntect::highlighting::Color). -/
structure SynColor where
  r : Nat
  g : Nat
  b : Nat
  a : Nat
deriving DecidableEq, Repr

/-- A syntect style (syntect::highlighting::Style): foreground and background
colors plus a font-style bitflag byte. -/
structure SynStyle where
  foreground : SynColor
  background : SynColor
  fontStyle : Nat
deriving DecidableEq, Repr

/-- An egui color (egui::Color32): r, g, b, a bytes. -/
structure Color32 where
  r : Nat
  g : Nat
  b : Nat
  a : Nat
deriving DecidableEq, Repr

/-- Color32::from_rgb: opaque color from three bytes (alpha 255). -/
def Color32.fromRgb (r g b : Nat) : Color32 := ⟨r, g, b, 255⟩

/-- Color32::WHITE, the color of the newline runs the editor inserts. -/
def Color32.white : Color32 := ⟨255, 255, 255, 255⟩

/-- One styled run appended to the layout job: a text fragment and its color.
The font is the constant FontId::monospace(14.0) on every append and is not
carried in the embedding. -/
structure Run where
  text : Str
  color : Color32
deriving DecidableEq, Repr

/-- The layout job assembled by a layouter invocation: the ordered run list.
The wrap width the source copies into the job is an egui float passed through
unchanged and is outside the embedding. -/
structure LayoutJob where
  runs : List Run
deriving DecidableEq, Repr

/-- Concatenation of the texts of all runs of a job, in order. -/
def LayoutJob.textConcat (j : LayoutJob) : Str := (j.runs.map Run.text).flatten

/-- A syntax definition reference (syntect::parsing::SyntaxReference): its
name and the file extensions it registers. -/
structure SynRef where
  name : String
  fileExtensions : List String
deriving DecidableEq, Repr

/-- A syntax registry (syntect::parsing::SyntaxSet), as loaded once at
construction from load_defaults_newlines; modelled as its list of syntax
definitions. -/
structure SynSet where
  syns : List SynRef
deriving DecidableEq, Repr

/-- SyntaxSet::find_syntax_by_extension: the first syntax definition
registering the extension, if any. -/
def SynSet.findSynByExtension (ss : SynSet) (ext : String) : Option SynRef :=
  ss.syns.find? (fun s => s.fileExtensions.contains ext)

/-- A color theme (syntect::highlighting::Theme): opaque immutable content,
modelled as a name plus scope-to-style data.  Rust's derived PartialEq on
Theme is value equality, which DecidableEq mirrors. -/
structure Theme where
  name : String
  scopes : List (String × SynStyle)
deriving DecidableEq, Repr

/-- A theme registry (syntect::highlighting::ThemeSet), as loaded once at
construction from load_defaults; modelled as a name-keyed association list
(the BTreeMap). -/
structure ThemeSet where
  themes : List (String × Theme)
deriving DecidableEq, Repr

/-- BTreeMap lookup ts.themes.get(name). -/
def ThemeSet.get? (ts : ThemeSet) (key : String) : Option Theme :=
  (ts.themes.find? (fun p => p.1 = key)).map (fun p => p.2)

/-- The external highlighting engine behind syntect::easy::HighlightLines,
abstracted: a state type, the state made by HighlightLines::new, and
highlight_line, which takes the current state by mutable reference (so it
always yields a successor state) and either returns the styled ranges of the
input or fails with an internal error. -/
structure Engine (σ : Type) where
  newState : SynRef → Theme → σ
  highlightLine : σ → Str → SynSet → σ × Except Unit (List (SynStyle × Str))

/-- The engine contract assumed of syntect (spec section 6): highlight_line
succeeds and its ranges exactly partition the input line. -/
def Engine.partitionOk {σ : Type} (e : Engine σ) (ss : SynSet) : Prop :=
  ∀ st line, ∃ st2 rs,
    e.highlightLine st line ss = (st2, Except.ok rs) ∧ (rs.map Prod.snd).flatten = line

/-- Feeding a list of lines through the engine in order, keeping the state. -/
def Engine.feed {σ : Type} (e : Engine σ) (ss : SynSet) (st : σ) (lines : List Str) : σ :=
  lines.foldl (fun s l => (e.highlightLine s l ss).1) st

/-- Construction failure: both panic sites of CodeEditor::new/CodeViewer::new.
Indexing ts.themes with a missing key panics (modelled themeNotFound);
unwrapping find_syntax_by_extension's None panics (modelled synNotFound).
Either way construction fails and no widget value is produced. -/
inductive NewPanic where
  | themeNotFound
  | synNotFound
deriving DecidableEq, Repr

/-- The CodeEditor widget (src/editor.rs).  The leaked Box around the cloned
syntax definition is modelled by its address (synPtr, the identity ptr::eq
compares) together with the pointed-to value (synVal).  The Arc around the
theme compares by value in Rust, so the theme is held by value. -/
structure CodeEditor where
  code : Str
  synSet : SynSet
  theme : Theme
  synPtr : Nat
  synVal : SynRef
  highlighter : Option Unit
deriving DecidableEq, Repr

/-- The CodeViewer widget (src/viewer.rs); fields as in CodeEditor. -/
structure CodeViewer where
  code : Str
  synSet : SynSet
  theme : Theme
  synPtr : Nat
  synVal : SynRef
  highlighter : Option Unit
deriving DecidableEq, Repr

/-- CodeEditor::new(syntax_ext, color_theme): index the theme registry (panic
when absent), then unwrap the extension lookup (panic when absent); on
success the widget starts with an empty buffer and no highlighter.  The
fresh address of the leaked box is passed in as addr. -/
def CodeEditor.new (ps : SynSet) (ts : ThemeSet) (synExt colorTheme : String)
    (addr : Nat) : Except NewPanic CodeEditor :=
  match ts.get? colorTheme with
  | none => Except.error NewPanic.themeNotFound
  | some theme =>
    match ps.findSynByExtension synExt with
    | none => Except.error NewPanic.synNotFound
    | some syn => Except.ok ⟨[], ps, theme, addr, syn, none⟩

/-- CodeViewer::new(syntax_ext, color_theme), identical to the editor's. -/
def CodeViewer.new (ps : SynSet) (ts : ThemeSet) (synExt colorTheme : String)
    (addr : Nat) : Except NewPanic CodeViewer :=
  match ts.get? colorTheme with
  | none => Except.error NewPanic.themeNotFound
  | some theme =>
    match ps.findSynByExtension synExt with
    | none => Except.error NewPanic.synNotFound
    | some syn => Except.ok ⟨[], ps, theme, addr, syn, none⟩

/-- impl Clone for CodeEditor: clone code, deep-copy the syntax set (equal
value), clone the Arc (same theme value), copy the static pointer, and reset
the highlighter field to None. -/
def CodeEditor.clone (w : CodeEditor) : CodeEditor :=
  ⟨w.code, w.synSet, w.theme, w.synPtr, w.synVal, none⟩

/-- impl Clone for CodeViewer, identical to the editor's. -/
def CodeViewer.clone (w : CodeViewer) : CodeViewer :=
  ⟨w.code, w.synSet, w.theme, w.synPtr, w.synVal, none⟩

/-- impl PartialEq for CodeEditor: code equality, theme value equality
(through the Arc), and pointer identity of the syntax reference. -/
def CodeEditor.eqRust (a b : CodeEditor) : Bool :=
  a.code == b.code && a.theme == b.theme && a.synPtr == b.synPtr

/-- impl PartialEq for CodeViewer, identical to the editor's. -/
def CodeViewer.eqRust (a b : CodeViewer) : Bool :=
  a.code == b.code && a.theme == b.theme && a.synPtr == b.synPtr

/-- The run conversion in both ui loops: each (style, text) range becomes a
run whose color is Color32::from_rgb of the style's foreground r, g, b. -/
def styledRuns (ranges : List (SynStyle × Str)) : List Run :=
  ranges.map (fun p =>
    ⟨p.2, Color32.fromRgb p.1.foreground.r p.1.foreground.g p.1.foreground.b⟩)

/-- The newline separator run the editor appends between lines:
text a single newline, color Color32::WHITE. -/
def newlineRun : Run := ⟨['\n'], Color32.white⟩

/-- The editor layouter's for-loop over text.lines().enumerate() with the
highlighter state threaded through: on Ok the converted runs are appended, on
Err nothing is (the if-let discards the error case); after every line except
the last (i + 1 < text.lines().count() = n) the white newline run is
appended.  Returns the final highlighter state and the appended runs. -/
def editorLoop {σ : Type} (e : Engine σ) (ss : SynSet) (n : Nat) :
    σ → Nat → List Str → σ × List Run
  | st, _, [] => (st, [])
  | st, i, line :: rest =>
    let r := e.highlightLine st line ss
    let here :=
      match r.2 with
      | Except.ok ranges => styledRuns ranges
      | Except.error _ => []
    let here2 := if i + 1 < n then here ++ [newlineRun] else here
    let tail := editorLoop e ss n r.1 (i + 1) rest
    (tail.1, here2 ++ tail.2)

/-- One invocation of the editor's layouter closure on the full buffer text:
a fresh HighlightLines state is created (HighlightLines::new at the top of
the closure body), then the loop runs over the buffer's lines. -/
def editorLayout {σ : Type} (e : Engine σ) (syn : SynRef) (theme : Theme)
    (ss : SynSet) (text : Str) : σ × LayoutJob :=
  let lines := rustLines text
  let res := editorLoop e ss lines.length (e.newState syn theme) 0 lines
  (res.1, ⟨res.2⟩)

/-- CodeEditor::ui: egui invokes the layouter with the widget's buffer; the
layouter re-highlights it from a fresh state each pass. -/
def CodeEditor.ui {σ : Type} (e : Engine σ) (w : CodeEditor) : σ × LayoutJob :=
  editorLayout e w.synVal w.theme w.synSet w.code

/-- The viewer's layouter closure body: a single highlight_line call on the
string egui hands the layouter (the entire buffer text, bound to the
parameter named line in the source); on Ok the converted runs form the job,
on Err the job stays empty. -/
def viewerLayout {σ : Type} (e : Engine σ) (st : σ) (ss : SynSet)
    (line : Str) : σ × LayoutJob :=
  let r := e.highlightLine st line ss
  match r.2 with
  | Except.ok ranges => (r.1, ⟨styledRuns ranges⟩)
  | Except.error _ => (r.1, ⟨[]⟩)

/-- CodeViewer::ui: a fresh HighlightLines state is created when ui runs and
captured by the layouter, which egui then invokes on the buffer text. -/
def CodeViewer.ui {σ : Type} (e : Engine σ) (w : CodeViewer) : σ × LayoutJob :=
  viewerLayout e (e.newState w.synVal w.theme) w.synSet w.code

/-!
Concrete fixtures: small registries and test engines used by witnesses and
counterexamples.  The engines stand in for the external syntect tokenizer,
whose concrete behavior is outside this repository.
-/

/-- A default style whose foreground is a neutral gray. -/
def defaultStyle : SynStyle := ⟨⟨191, 191, 191, 255⟩, ⟨40, 44, 52, 255⟩, 0⟩

/-- A comment style with a distinctive foreground. -/
def commentStyle : SynStyle := ⟨⟨92, 99, 112, 255⟩, ⟨40, 44, 52, 255⟩, 0⟩

/-- The output color of commentStyle under the run conversion. -/
def commentColor : Color32 := ⟨92, 99, 112, 255⟩

/-- The plainest partition-correct tokenizer: each input comes back as one
default-styled range. -/
def idEngine : Engine Unit :=
  ⟨fun _ _ => (), fun _ line _ => ((), Except.ok [(defaultStyle, line)])⟩

/-- A tokenizer whose state records, in order, every string it was fed. -/
def traceEngine : Engine (List Str) :=
  ⟨fun _ _ => [], fun st line _ => (st ++ [line], Except.ok [(defaultStyle, line)])⟩

/-- A tokenizer for the multi-line comment scenario of spec section 8: a
line starting a block comment flips the state, and any input seen while the
state is set is styled as a comment. -/
def toyEngine : Engine Bool :=
  ⟨fun _ _ => false, fun st line _ =>
    if st then (true, Except.ok [(commentStyle, line)])
    else if line.take 2 = ['/', '*'] then (true, Except.ok [(commentStyle, line)])
    else (false, Except.ok [(defaultStyle, line)])⟩

/-- A tokenizer that faults on the designated line bad and otherwise behaves
like idEngine. -/
def errEngine : Engine Unit :=
  ⟨fun _ _ => (), fun _ line _ =>
    if line = "bad".data then ((), Except.error ())
    else ((), Except.ok [(defaultStyle, line)])⟩

/-- A two-entry syntax registry fixture. -/
def rsSyn : SynRef := ⟨"Rust", ["rs"]⟩

/-- A plain-text syntax definition fixture. -/
def txtSyn : SynRef := ⟨"Plain Text", ["txt"]⟩

/-- Syntax registry fixture holding rsSyn and txtSyn. -/
def ps0 : SynSet := ⟨[rsSyn, txtSyn]⟩

/-- Theme fixture. -/
def thm0 : Theme := ⟨"base16-ocean.dark", []⟩

/-- Theme registry fixture holding thm0 under its name. -/
def ts0 : ThemeSet := ⟨[("base16-ocean.dark", thm0)]⟩

/-- An editor over the fixture registries holding the given buffer. -/
def mkEd (code : Str) : CodeEditor := ⟨code, ps0, thm0, 0, rsSyn, none⟩

/-- A viewer over the fixture registries holding the given buffer. -/
def mkVw (code : Str) : CodeViewer := ⟨code, ps0, thm0, 0, rsSyn, none⟩

/-- Formalisation of claim C5's gutter property, taken from the spec's words
(section 4.2): the rendered text of the visual line with 1-based index idx is
the line prefixed by its right-aligned line number, namely space padding,
then the decimal digits of idx, then a separator, then the line itself. -/
def gutterPrefixed (idx : Nat) (line out : Str) : Prop :=
  ∃ pad sep, (∀ c ∈ pad, c = ' ') ∧ out = pad ++ (Nat.repr idx).data ++ sep ++ line

/-!
Helper lemmas about line splitting and the projection loop.
-/

theorem idEngine_partitionOk (ss : SynSet) : idEngine.partitionOk ss :=
  fun _ line => ⟨(), [(defaultStyle, line)], rfl, by simp⟩

theorem splitNL_nil : splitNL [] = [[]] := rfl

theorem splitNL_cons (a : Char) (s : Str) :
    splitNL (a :: s) =
      if a = '\n' then [] :: splitNL s else (splitNL s).modifyHead (List.cons a) := by
  simp [splitNL, List.splitOn]

theorem splitNL_ne_nil (s : Str) : splitNL s ≠ [] :=
  List.splitOnP_ne_nil _ s

theorem splitNL_sub (s : Str) : ∀ p ∈ splitNL s, ∀ c ∈ p, c ∈ s := by
  induction s with
  | nil => intro p hp c hc; rw [splitNL_nil] at hp; simp at hp; simp [hp] at hc
  | cons a s ih =>
    intro p hp c hc
    rw [splitNL_cons] at hp
    by_cases ha : a = '\n'
    · rw [if_pos ha] at hp
      rcases List.mem_cons.1 hp with h | h
      · simp [h] at hc
      · exact List.mem_cons_of_mem a (ih p h c hc)
    · rw [if_neg ha] at hp
      obtain ⟨q, t, hq⟩ := List.exists_cons_of_ne_nil (splitNL_ne_nil s)
      rw [hq] at hp
      simp only [List.modifyHead] at hp
      rcases List.mem_cons.1 hp with h | h
      · subst h
        rcases List.mem_cons.1 hc with h2 | h2
        · simp [h2]
        · exact List.mem_cons_of_mem a (ih q (by rw [hq]; exact List.mem_cons_self q t) c h2)
      · exact List.mem_cons_of_mem a (ih p (by rw [hq]; exact List.mem_cons_of_mem q h) c hc)

theorem splitNL_getLast_ne_nil (s : Str) (h0 : s ≠ []) (hn : s.getLast? ≠ some '\n') :
    (splitNL s).getLast? ≠ some [] := by
  induction s with
  | nil => exact absurd rfl h0
  | cons a s ih =>
    rw [splitNL_cons]
    by_cases ha : a = '\n'
    · rw [if_pos ha]
      cases s with
      | nil => subst ha; simp at hn
      | cons b t =>
        have h2 := ih (by simp) (by rw [List.getLast?_cons_cons] at hn; exact hn)
        obtain ⟨q, t2, hq⟩ := List.exists_cons_of_ne_nil (splitNL_ne_nil (b :: t))
        rw [hq]
        rw [List.getLast?_cons_cons]
        rw [hq] at h2
        exact h2
    · rw [if_neg ha]
      cases s with
      | nil => simp [splitNL_nil]
      | cons b t =>
        have h2 := ih (by simp) (by rw [List.getLast?_cons_cons] at hn; exact hn)
        obtain ⟨q, t2, hq⟩ := List.exists_cons_of_ne_nil (splitNL_ne_nil (b :: t))
        rw [hq]
        simp only [List.modifyHead]
        cases t2 with
        | nil => simp
        | cons r t3 =>
          rw [List.getLast?_cons_cons]
          rw [hq, List.getLast?_cons_cons] at h2
          exact h2

theorem stripCR_eq_self {p : Str} (h : '\r' ∉ p) : stripCR p = p := by
  unfold stripCR
  rw [if_neg]
  intro hc
  exact h (List.mem_of_getLast?_eq_some hc)

theorem rustLinesAux_id (parts : List Str) (hcr : ∀ p ∈ parts, stripCR p = p)
    (hl : parts.getLast? ≠ some []) : rustLinesAux parts = parts := by
  induction parts with
  | nil => rfl
  | cons p rest ih =>
    cases rest with
    | nil =>
      have hp : p ≠ [] := by simpa using hl
      simp [rustLinesAux, hp]
    | cons q t =>
      have h1 : stripCR p = p := hcr p (List.mem_cons_self p (q :: t))
      have h2 := ih (fun x hx => hcr x (List.mem_cons_of_mem p hx))
        (by rw [List.getLast?_cons_cons] at hl; exact hl)
      simp only [rustLinesAux, h1, h2]

theorem intercalate_rustLines (s : Str) (hr : '\r' ∉ s) (hn : s.getLast? ≠ some '\n') :
    List.intercalate ['\n'] (rustLines s) = s := by
  by_cases h0 : s = []
  · subst h0
    simp [rustLines, splitNL_nil, rustLinesAux, List.intercalate]
  · have heq : rustLines s = splitNL s := by
      unfold rustLines
      exact rustLinesAux_id (splitNL s)
        (fun p hp => stripCR_eq_self (fun hc => hr (splitNL_sub s p hp '\r' hc)))
        (splitNL_getLast_ne_nil s h0 hn)
    rw [heq]
    exact List.intercalate_splitOn s '\n'

theorem intercalate_cons2 (a l : Str) (ls : List Str) :
    List.intercalate ['\n'] (a :: l :: ls) = a ++ '\n' :: List.intercalate ['\n'] (l :: ls) := by
  simp [List.intercalate, List.intersperse_cons_cons]

theorem styledRuns_text (rs : List (SynStyle × Str)) :
    (styledRuns rs).map Run.text = rs.map Prod.snd := by
  simp [styledRuns]

theorem editorLoop_cons {σ : Type} (e : Engine σ) (ss : SynSet) (n : Nat)
    (st : σ) (i : Nat) (line : Str) (rest : List Str) :
    editorLoop e ss n st i (line :: rest) =
      ((editorLoop e ss n (e.highlightLine st line ss).1 (i + 1) rest).1,
        (if i + 1 < n then
          (match (e.highlightLine st line ss).2 with
            | Except.ok ranges => styledRuns ranges
            | Except.error _ => []) ++ [newlineRun]
        else
          match (e.highlightLine st line ss).2 with
          | Except.ok ranges => styledRuns ranges
          | Except.error _ => []) ++
          (editorLoop e ss n (e.highlightLine st line ss).1 (i + 1) rest).2) := rfl

theorem editorLoop_textConcat {σ : Type} (e : Engine σ) (ss : SynSet)
    (hp : e.partitionOk ss) (lines : List Str) :
    ∀ (st : σ) (i n : Nat), i + lines.length = n →
      (((editorLoop e ss n st i lines).2).map Run.text).flatten =
        List.intercalate ['\n'] lines := by
  induction lines with
  | nil => intro st i n _; simp [editorLoop, List.intercalate]
  | cons line rest ih =>
    intro st i n h
    obtain ⟨st2, rs, heq, hflat⟩ := hp st line
    rw [editorLoop_cons, heq]
    cases rest with
    | nil =>
      have hlt : ¬ (i + 1 < n) := by simp at h; omega
      simp [editorLoop, hlt, List.intercalate, styledRuns_text, hflat]
    | cons l2 t2 =>
      have hlt : i + 1 < n := by simp at h; omega
      have h2 : i + 1 + (l2 :: t2).length = n := by simp at h ⊢; omega
      rw [if_pos hlt, intercalate_cons2]
      simp only [List.map_append, List.flatten_append]
      rw [ih ((st2, Except.ok rs) : σ × Except Unit (List (SynStyle × Str))).1 (i + 1) n h2]
      simp [styledRuns_text, hflat, newlineRun]

theorem editorLoop_state {σ : Type} (e : Engine σ) (ss : SynSet) (lines : List Str) :
    ∀ (st : σ) (i n : Nat), (editorLoop e ss n st i lines).1 = e.feed ss st lines := by
  induction lines with
  | nil => intro st i n; rfl
  | cons line rest ih =>
    intro st i n
    simp only [editorLoop, Engine.feed, List.foldl_cons]
    exact ih _ _ n

/-- An engine transformed so that the background color of every style it
emits is overwritten by c; states and texts are untouched.  Used to show the
projection never reads background colors. -/
def Engine.bgSet {σ : Type} (c : SynColor) (e : Engine σ) : Engine σ :=
  ⟨e.newState, fun st l ss =>
    let r := e.highlightLine st l ss
    (r.1, r.2.map (fun rs => rs.map (fun p => ({ p.1 with background := c }, p.2))))⟩

theorem styledRuns_bg (c : SynColor) (rs : List (SynStyle × Str)) :
    styledRuns (rs.map (fun p => ({ p.1 with background := c }, p.2))) = styledRuns rs := by
  simp [styledRuns]

theorem editorLoop_bg {σ : Type} (c : SynColor) (e : Engine σ) (ss : SynSet) (lines : List Str) :
    ∀ (st : σ) (i n : Nat),
      editorLoop (Engine.bgSet c e) ss n st i lines = editorLoop e ss n st i lines := by
  induction lines with
  | nil => intro st i n; rfl
  | cons line rest ih =>
    intro st i n
    rw [editorLoop_cons, editorLoop_cons]
    cases hr : e.highlightLine st line ss with
    | mk st2 res =>
      have hbg : (Engine.bgSet c e).highlightLine st line ss =
          (st2, res.map (fun rs => rs.map (fun p => ({ p.1 with background := c }, p.2)))) := by
        simp [Engine.bgSet, hr]
      rw [hbg]
      cases res with
      | ok rs => simp [Except.map, styledRuns_bg, ih]
      | error err => simp [Except.map, ih]

theorem viewerLayout_bg {σ : Type} (c : SynColor) (e : Engine σ) (st : σ)
    (ss : SynSet) (text : Str) :
    viewerLayout (Engine.bgSet c e) st ss text = viewerLayout e st ss text := by
  unfold viewerLayout
  cases hr : e.highlightLine st text ss with
  | mk st2 res =>
    have hbg : (Engine.bgSet c e).highlightLine st text ss =
        (st2, res.map (fun rs => rs.map (fun p => ({ p.1 with background := c }, p.2)))) := by
      simp [Engine.bgSet, hr]
    rw [hbg]
    cases res with
    | ok rs => simp [Except.map, styledRuns_bg]
    | error err => simp [Except.map]

/-!
Claims.
-/

/-- C1, counterexample: the claim fails as stated.  For the buffer a followed
by a newline, the editor's layouter (under the plainest partition-correct
tokenizer) appends runs whose concatenation is just a: str::lines drops the
trailing line terminator and the loop re-inserts newlines only between
lines, so the final newline of the buffer is lost. -/
theorem c1_roundtrip_counterexample :
    ((CodeEditor.ui idEngine (mkEd "a\n".data)).2).textConcat ≠ (mkEd "a\n".data).code := by
  decide

/-- C1 (amended): for a tokenizer satisfying the partition contract, the
concatenation of all run texts appended by the editor's layouter (newline
runs included) reconstructs the buffer exactly, provided the buffer contains
no carriage return and does not end with a newline; in general it equals the
buffer's lines rejoined with single newlines, so a trailing newline is
dropped and any CRLF collapses to LF. -/
theorem c1_roundtrip_amended {σ : Type} (e : Engine σ) (w : CodeEditor)
    (hp : e.partitionOk w.synSet) (hr : '\r' ∉ w.code)
    (hn : w.code.getLast? ≠ some '\n') :
    ((CodeEditor.ui e w).2).textConcat = w.code := by
  calc ((CodeEditor.ui e w).2).textConcat
      = (((editorLoop e w.synSet (rustLines w.code).length
            (e.newState w.synVal w.theme) 0 (rustLines w.code)).2).map Run.text).flatten := rfl
    _ = List.intercalate ['\n'] (rustLines w.code) :=
        editorLoop_textConcat e w.synSet hp (rustLines w.code)
          (e.newState w.synVal w.theme) 0 (rustLines w.code).length (by omega)
    _ = w.code := intercalate_rustLines w.code hr hn

/-- C1, witness: the amended round-trip at a concrete two-line buffer. -/
theorem c1_roundtrip_witness :
    idEngine.partitionOk (mkEd "ab\ncd".data).synSet ∧
    '\r' ∉ (mkEd "ab\ncd".data).code ∧
    (mkEd "ab\ncd".data).code.getLast? ≠ some '\n' ∧
    ((CodeEditor.ui idEngine (mkEd "ab\ncd".data)).2).textConcat = (mkEd "ab\ncd".data).code :=
  ⟨idEngine_partitionOk _, by decide, by decide,
    c1_roundtrip_amended idEngine (mkEd "ab\ncd".data) (idEngine_partitionOk _)
      (by decide) (by decide)⟩

/-- C2: the code contradicts the claim.  With a tokenizer that faults on the
line bad, the editor's layouter emits nothing for that line (the if-let
silently discards the Err case), so the buffer ok newline bad projects to
runs ok and newline only: the faulting line's text is dropped instead of
being emitted as a single default-colored run. -/
theorem c2_error_drops_line :
    ((CodeEditor.ui errEngine (mkEd "ok\nbad".data)).2).runs.map Run.text =
      ["ok".data, ['\n']] ∧
    ((CodeEditor.ui errEngine (mkEd "ok\nbad".data)).2).textConcat = "ok\n".data ∧
    ((CodeEditor.ui errEngine (mkEd "ok\nbad".data)).2).textConcat ≠
      (mkEd "ok\nbad".data).code := by
  decide

/-- C3: a theme name absent from the registry makes construction of either
widget fail (the BTreeMap index panics, modelled as the themeNotFound
construction failure) and produce no widget value. -/
theorem c3_unknown_theme_fails (ps : SynSet) (ts : ThemeSet)
    (synExt colorTheme : String) (addr : Nat) (h : ts.get? colorTheme = none) :
    CodeEditor.new ps ts synExt colorTheme addr = Except.error NewPanic.themeNotFound ∧
    CodeViewer.new ps ts synExt colorTheme addr = Except.error NewPanic.themeNotFound := by
  constructor <;> simp [CodeEditor.new, CodeViewer.new, h]

/-- C3, witness: the fixture registry has no theme named nope. -/
theorem c3_unknown_theme_witness :
    ts0.get? "nope" = none ∧
    CodeEditor.new ps0 ts0 "rs" "nope" 0 = Except.error NewPanic.themeNotFound ∧
    CodeViewer.new ps0 ts0 "rs" "nope" 0 = Except.error NewPanic.themeNotFound :=
  ⟨by decide, (c3_unknown_theme_fails ps0 ts0 "rs" "nope" 0 (by decide)).1,
    (c3_unknown_theme_fails ps0 ts0 "rs" "nope" 0 (by decide)).2⟩

/-- C4, counterexample: the claim fails as stated.  With an extension absent
from the registry (and a valid theme), construction does not succeed with a
plain-text fallback: the unwrap on find_syntax_by_extension panics, so
new fails and no widget is produced. -/
theorem c4_fallback_counterexample :
    CodeEditor.new ps0 ts0 "zz" "base16-ocean.dark" 0 = Except.error NewPanic.synNotFound ∧
    (CodeEditor.new ps0 ts0 "zz" "base16-ocean.dark" 0).isOk = false ∧
    CodeViewer.new ps0 ts0 "zz" "base16-ocean.dark" 0 = Except.error NewPanic.synNotFound ∧
    (CodeViewer.new ps0 ts0 "zz" "base16-ocean.dark" 0).isOk = false := by
  decide

/-- C4 (amended): for every language identifier with no match in the syntax
registry (and a theme name that does resolve), construction of either widget
fails with the unwrap panic on the syntax lookup; there is no plain-text
fallback. -/
theorem c4_unknown_ext_panics (ps : SynSet) (ts : ThemeSet)
    (synExt colorTheme : String) (addr : Nat) (thm : Theme)
    (ht : ts.get? colorTheme = some thm)
    (hs : ps.findSynByExtension synExt = none) :
    CodeEditor.new ps ts synExt colorTheme addr = Except.error NewPanic.synNotFound ∧
    CodeViewer.new ps ts synExt colorTheme addr = Except.error NewPanic.synNotFound := by
  constructor <;> simp [CodeEditor.new, CodeViewer.new, ht, hs]

/-- C4, witness: the fixture registry registers no syntax for zz. -/
theorem c4_unknown_ext_witness :
    ts0.get? "base16-ocean.dark" = some thm0 ∧
    ps0.findSynByExtension "zz" = none ∧
    CodeEditor.new ps0 ts0 "zz" "base16-ocean.dark" 3 = Except.error NewPanic.synNotFound ∧
    CodeViewer.new ps0 ts0 "zz" "base16-ocean.dark" 3 = Except.error NewPanic.synNotFound :=
  ⟨by decide, by decide,
    (c4_unknown_ext_panics ps0 ts0 "zz" "base16-ocean.dark" 3 thm0 (by decide) (by decide)).1,
    (c4_unknown_ext_panics ps0 ts0 "zz" "base16-ocean.dark" 3 thm0 (by decide) (by decide)).2⟩

/-- C5, counterexample: the claim fails as stated.  The viewer renders the
one-line buffer x as exactly x: no 1-based line index is prefixed (the
rendered text is too short to contain any gutter), because the viewer's ui
contains no line numbering code at all. -/
theorem c5_gutter_counterexample :
    ((CodeViewer.ui idEngine (mkVw "x".data)).2).textConcat = "x".data ∧
    ¬ gutterPrefixed 1 "x".data ((CodeViewer.ui idEngine (mkVw "x".data)).2).textConcat := by
  refine ⟨by decide, ?_⟩
  rintro ⟨pad, sep, _, heq⟩
  have h1 : ((CodeViewer.ui idEngine (mkVw "x".data)).2).textConcat = "x".data := by decide
  rw [h1] at heq
  have hlen := congrArg List.length heq
  have hd : (Nat.repr 1).data.length = 1 := by decide
  simp only [List.length_append, hd] at hlen
  omega

/-- C5 (amended): the viewer draws no line-number gutter.  For a tokenizer
satisfying the partition contract, the text the viewer's layouter renders is
exactly the buffer text, with nothing prefixed to any line. -/
theorem c5_viewer_no_gutter {σ : Type} (e : Engine σ) (w : CodeViewer)
    (hp : e.partitionOk w.synSet) :
    ((CodeViewer.ui e w).2).textConcat = w.code := by
  obtain ⟨st2, rs, heq, hflat⟩ := hp (e.newState w.synVal w.theme) w.code
  show ((viewerLayout e (e.newState w.synVal w.theme) w.synSet w.code).2).textConcat = w.code
  simp only [viewerLayout, heq]
  simp [LayoutJob.textConcat, styledRuns_text, hflat]

/-- C5, witness: the amended statement at a concrete two-line buffer. -/
theorem c5_viewer_no_gutter_witness :
    idEngine.partitionOk (mkVw "hi\nyo".data).synSet ∧
    ((CodeViewer.ui idEngine (mkVw "hi\nyo".data)).2).textConcat = (mkVw "hi\nyo".data).code :=
  ⟨idEngine_partitionOk _,
    c5_viewer_no_gutter idEngine (mkVw "hi\nyo".data) (idEngine_partitionOk _)⟩

/-- C6, counterexample: the claim fails as stated for the viewer, whose ui
the claim also covers.  Under a tokenizer whose state records every string it
is fed, projecting the two-line buffer a newline b through the viewer feeds
the tokenizer the whole buffer in one call, not each line in order. -/
theorem c6_viewer_counterexample :
    (CodeViewer.ui traceEngine (mkVw "a\nb".data)).1 = ["a\nb".data] ∧
    rustLines (mkVw "a\nb".data).code = ["a".data, "b".data] ∧
    (CodeViewer.ui traceEngine (mkVw "a\nb".data)).1 ≠ rustLines (mkVw "a\nb".data).code := by
  decide

/-- C6 (amended): in the editor a single tokenizer state is created at the
start of each pass (so it is recreated on every new pass) and fed each line
of the buffer in order, as witnessed by the final state equalling the fold of
the tokenizer over the buffer's lines from the fresh state; consequently, for
the two-line input where line 1 opens a block comment and line 2 sits inside
it, both lines' text is styled with the comment style.  The viewer instead
hands the tokenizer the entire buffer text in a single call per pass. -/
theorem c6_editor_state_threading :
    (∀ {σ : Type} (e : Engine σ) (w : CodeEditor),
        (CodeEditor.ui e w).1 = e.feed w.synSet (e.newState w.synVal w.theme) (rustLines w.code)) ∧
    ((CodeEditor.ui toyEngine (mkEd "/*abc\ndef".data)).2).runs =
      [⟨"/*abc".data, commentColor⟩, newlineRun, ⟨"def".data, commentColor⟩] := by
  constructor
  · intro σ e w
    exact editorLoop_state e w.synSet (rustLines w.code) (e.newState w.synVal w.theme) 0
      (rustLines w.code).length
  · decide

/-- C7: projection is deterministic across instances.  Two editors built by
new from the same registries, extension and theme name (the leaked syntax
boxes may live at different addresses) produce identical layout jobs for
identical buffer text under any engine. -/
theorem c7_determinism {σ : Type} (e : Engine σ) (ps : SynSet) (ts : ThemeSet)
    (synExt colorTheme : String) (a1 a2 : Nat) (w1 w2 : CodeEditor) (text : Str)
    (h1 : CodeEditor.new ps ts synExt colorTheme a1 = Except.ok w1)
    (h2 : CodeEditor.new ps ts synExt colorTheme a2 = Except.ok w2) :
    (CodeEditor.ui e { w1 with code := text }).2 =
      (CodeEditor.ui e { w2 with code := text }).2 := by
  unfold CodeEditor.new at h1 h2
  cases hts : ts.get? colorTheme with
  | none => rw [hts] at h1; exact absurd h1 (by simp)
  | some thm =>
    rw [hts] at h1 h2
    cases hps : ps.findSynByExtension synExt with
    | none => rw [hps] at h1; exact absurd h1 (by simp)
    | some syn =>
      rw [hps] at h1 h2
      injection h1 with h1
      injection h2 with h2
      rw [← h1, ← h2]
      rfl

/-- C7, witness: two fixture editors built at distinct addresses agree on the
projection of the buffer x. -/
theorem c7_determinism_witness :
    CodeEditor.new ps0 ts0 "rs" "base16-ocean.dark" 0 = Except.ok (mkEd []) ∧
    CodeEditor.new ps0 ts0 "rs" "base16-ocean.dark" 1 =
      Except.ok ⟨[], ps0, thm0, 1, rsSyn, none⟩ ∧
    (CodeEditor.ui idEngine { mkEd [] with code := "x".data }).2 =
      (CodeEditor.ui idEngine
        { (⟨[], ps0, thm0, 1, rsSyn, none⟩ : CodeEditor) with code := "x".data }).2 :=
  ⟨by decide, by decide,
    c7_determinism idEngine ps0 ts0 "rs" "base16-ocean.dark" 0 1 (mkEd [])
      ⟨[], ps0, thm0, 1, rsSyn, none⟩ "x".data (by decide) (by decide)⟩

/-- C8: projection of an unchanged buffer is idempotent.  Each pass begins
with a fresh tokenizer state (HighlightLines::new inside the layouter), so
two passes over widgets agreeing on buffer, syntax set, theme and syntax
value — in particular the same widget twice, whatever its highlighter field
or pointer hold after the first pass — yield byte-identical run sequences. -/
theorem c8_idempotent {σ : Type} (e : Engine σ) (w w2 : CodeEditor)
    (hc : w2.code = w.code) (hs : w2.synSet = w.synSet) (ht : w2.theme = w.theme)
    (hv : w2.synVal = w.synVal) :
    (CodeEditor.ui e w2).2 = (CodeEditor.ui e w).2 := by
  unfold CodeEditor.ui
  rw [hc, hs, ht, hv]

/-- C8, witness: a second pass over the same buffer, with leftover
highlighter-field state and a different pointer, gives the same job. -/
theorem c8_idempotent_witness :
    ({ mkEd "a\nb".data with highlighter := some (), synPtr := 9 } : CodeEditor).code =
      (mkEd "a\nb".data).code ∧
    (CodeEditor.ui idEngine ({ mkEd "a\nb".data with highlighter := some (), synPtr := 9 })).2 =
      (CodeEditor.ui idEngine (mkEd "a\nb".data)).2 :=
  ⟨rfl, c8_idempotent idEngine (mkEd "a\nb".data)
    ({ mkEd "a\nb".data with highlighter := some (), synPtr := 9 }) rfl rfl rfl rfl⟩

/-- C9: run colors come from the style's foreground RGB triple alone.  The
run conversion maps each (style, text) range to the color made of exactly
the foreground's r, g, b components with constant alpha 255 (no blending),
and overwriting every background color the tokenizer emits changes neither
the editor's nor the viewer's projection. -/
theorem c9_foreground_mapping :
    (∀ (ranges : List (SynStyle × Str)),
        styledRuns ranges = ranges.map (fun p =>
          ⟨p.2, ⟨p.1.foreground.r, p.1.foreground.g, p.1.foreground.b, 255⟩⟩)) ∧
    (∀ {σ : Type} (c : SynColor) (e : Engine σ) (syn : SynRef) (theme : Theme)
        (ss : SynSet) (text : Str),
        editorLayout (Engine.bgSet c e) syn theme ss text = editorLayout e syn theme ss text) ∧
    (∀ {σ : Type} (c : SynColor) (e : Engine σ) (st : σ) (ss : SynSet) (text : Str),
        viewerLayout (Engine.bgSet c e) st ss text = viewerLayout e st ss text) := by
  refine ⟨fun ranges => rfl, ?_, ?_⟩
  · intro σ c e syn theme ss text
    have h := editorLoop_bg c e ss (rustLines text) (e.newState syn theme) 0
      (rustLines text).length
    show ((editorLoop (Engine.bgSet c e) ss (rustLines text).length
            (e.newState syn theme) 0 (rustLines text)).1,
          (⟨(editorLoop (Engine.bgSet c e) ss (rustLines text).length
            (e.newState syn theme) 0 (rustLines text)).2⟩ : LayoutJob)) =
        ((editorLoop e ss (rustLines text).length
            (e.newState syn theme) 0 (rustLines text)).1,
          ⟨(editorLoop e ss (rustLines text).length
            (e.newState syn theme) 0 (rustLines text)).2⟩)
    rw [h]
  · intro σ c e st ss text
    exact viewerLayout_bg c e st ss text

/-- C10: cloning either widget yields an instance equal to the original
under the source's PartialEq, which compares the code string, the theme
value and the syntax pointer — all three copied verbatim by Clone, which only
resets the highlighter field (not compared) and deep-copies the syntax set
(not compared). -/
theorem c10_clone_eq (w : CodeEditor) (v : CodeViewer) :
    CodeEditor.eqRust (CodeEditor.clone w) w = true ∧
    CodeViewer.eqRust (CodeViewer.clone v) v = true := by
  constructor <;>
    simp [CodeEditor.eqRust, CodeViewer.eqRust, CodeEditor.clone, CodeViewer.clone]

end EguiLitecode
